import Mathlib

/-!
Verification of the rule-scoring core of the AI resume-screening app
(`src/streamlit_app.py`).

The Python source is shallowly embedded: strings are `String` (lists of
Unicode code points, matching Python `str` semantics for indexing and
slicing, which the source only uses at character granularity), numbers that
the source handles as Python ints/floats are embedded as `ℚ` (the scoring
logic only adds, multiplies, compares, and takes `min`/`max`, all of which
the claims use only through exact identities and order facts), and the
configuration dictionaries are embedded as structures whose fields are the
keys the scoring code reads.
-/

/- Batteries marks the `Rat` arithmetic operations `@[irreducible]`, which
blocks `decide`-based evaluation of the embedded scoring functions on
concrete inputs; restore the definitional reducibility they have in the
kernel. -/
attribute [local semireducible] Rat.add Rat.mul Rat.sub Rat.inv Rat.ofScientific

/-! ### Character-level helpers

`streamlit_app.py` works with Python `str.lower`, the regex class `\s`
(with `re.UNICODE`), `str.strip`, and two explicit character sets
`INVISIBLE` and `WIDE_SPACES` (lines 155-157).  We model `\s` / `str.strip`
whitespace by the explicit list of Unicode whitespace code points Python
uses, and `str.lower` by the ASCII case table: every cased character that
can reach the scoring code in this app is ASCII (the remaining text is Thai,
which has no case). -/

/-- Whitespace code points matched by Python's `\s` (re.UNICODE) and stripped
by `str.strip()`. -/
def pySpaceChars : List Char :=
  [' ', '\t', '\n', '\r', '\x0b', '\x0c',
   '\x1c', '\x1d', '\x1e', '\x1f', '\x85', '\xa0',
   ' ', ' ', ' ', ' ', ' ', ' ', ' ',
   ' ', ' ', ' ', ' ', ' ',
   ' ', ' ', ' ', ' ', '　']

def isPySpace (c : Char) : Bool := pySpaceChars.contains c

/-- The ASCII case table: `str.lower` maps `'A'..'Z'` to `'a'..'z'` and fixes
every other character appearing in this app's data (Thai is uncased). -/
def lowerPairs : List (Char × Char) :=
  [('A', 'a'), ('B', 'b'), ('C', 'c'), ('D', 'd'), ('E', 'e'), ('F', 'f'),
   ('G', 'g'), ('H', 'h'), ('I', 'i'), ('J', 'j'), ('K', 'k'), ('L', 'l'),
   ('M', 'm'), ('N', 'n'), ('O', 'o'), ('P', 'p'), ('Q', 'q'), ('R', 'r'),
   ('S', 's'), ('T', 't'), ('U', 'u'), ('V', 'v'), ('W', 'w'), ('X', 'x'),
   ('Y', 'y'), ('Z', 'z')]

def lowerChar (c : Char) : Char := (lowerPairs.lookup c).getD c

/-- `re.sub(r"\s+", " ", text)` (line 75): each maximal run of whitespace is
replaced by a single ASCII space. -/
def subWS : List Char → List Char
  | [] => []
  | [c] => if isPySpace c then [' '] else [c]
  | c :: d :: rest =>
    if isPySpace c && isPySpace d then subWS (d :: rest)
    else (if isPySpace c then ' ' else c) :: subWS (d :: rest)

/-- `.strip()` / `WS_EDGES.sub("", s)` (lines 75, 155, 165): remove leading
and trailing whitespace. -/
def stripWS (l : List Char) : List Char :=
  ((l.dropWhile isPySpace).reverse.dropWhile isPySpace).reverse

/-- `normalize_text` (lines 72-76): lowercase, collapse every whitespace run
to a single space, strip the ends.  (The non-`str` guard returning `""`
is outside the embedded `String` domain.) -/
def normalize_text (s : String) : String :=
  String.mk (stripWS (subWS (s.toList.map lowerChar)))

/-- `INVISIBLE` (line 156). -/
def invisibleChars : List Char := ['​', '﻿']

/-- `WIDE_SPACES` (line 157). -/
def wideSpaceChars : List Char :=
  ['\xa0', ' ', ' ', ' ', ' ', ' ', '　']

/-- `clean_email` (lines 161-165): delete the invisible code points, map the
wide-space variants to an ASCII space, then strip the ends (the
`WS_EDGES.sub("", s)` regex deletes exactly the leading and trailing
whitespace runs). -/
def clean_email (s : String) : String :=
  String.mk (stripWS
    (((s.toList.filter fun c => !(invisibleChars.contains c)).map
        fun c => if wideSpaceChars.contains c then ' ' else c)))

/-! #### Idempotence machinery for `normalize_text` and `clean_email` -/

theorem lookup_some_mem {α β : Type} [BEq α] [LawfulBEq α]
    {l : List (α × β)} {a : α} {b : β} (h : l.lookup a = some b) : (a, b) ∈ l := by
  induction l with
  | nil => simp at h
  | cons p t ih =>
    rw [List.lookup_cons] at h
    by_cases hab : a == p.1
    · simp only [hab, if_pos] at h
      cases h
      have : a = p.1 := eq_of_beq hab
      subst this
      exact List.mem_cons_self _ _
    · simp only [hab, if_neg, Bool.false_eq_true, if_false] at h
      exact List.mem_cons_of_mem _ (ih h)

theorem lowerChar_lowerChar (c : Char) : lowerChar (lowerChar c) = lowerChar c := by
  cases h : lowerPairs.lookup c with
  | none => simp [lowerChar, h]
  | some v =>
    have hv : (c, v) ∈ lowerPairs := lookup_some_mem h
    have hvals : ∀ p ∈ lowerPairs, lowerPairs.lookup p.2 = none := by decide
    simp [lowerChar, h, hvals (c, v) hv]

/-- Relation "not two adjacent whitespace characters". -/
def NoWS2 (a b : Char) : Prop := isPySpace a = false ∨ isPySpace b = false

theorem noWS2_flip {a b : Char} (h : NoWS2 a b) : NoWS2 b a := h.symm

/-- Characters of `subWS l` are characters of `l` or the space it inserts. -/
theorem mem_subWS {c : Char} : ∀ {l : List Char}, c ∈ subWS l → c = ' ' ∨ c ∈ l
  | [], h => by simp [subWS] at h
  | [d], h => by
    by_cases hd : isPySpace d <;> simp [subWS, hd] at h <;> simp [h]
  | d :: e :: rest, h => by
    by_cases hde : isPySpace d && isPySpace e
    · rw [subWS, if_pos hde] at h
      rcases mem_subWS h with h1 | h1
      · exact Or.inl h1
      · exact Or.inr (List.mem_cons_of_mem _ h1)
    · rw [subWS, if_neg hde] at h
      rcases List.mem_cons.1 h with h1 | h1
      · by_cases hd : isPySpace d
        · simp only [hd, if_pos] at h1; exact Or.inl h1
        · simp only [hd, Bool.false_eq_true, if_false] at h1
          exact Or.inr (h1 ▸ List.mem_cons_self _ _)
      · rcases mem_subWS h1 with h2 | h2
        · exact Or.inl h2
        · exact Or.inr (List.mem_cons_of_mem _ h2)

/-- Every whitespace character in the output of `subWS` is the ASCII space. -/
theorem blank_subWS : ∀ {l : List Char} {c : Char},
    c ∈ subWS l → isPySpace c = true → c = ' '
  | [], c, h, _ => by simp [subWS] at h
  | [d], c, h, hs => by
    by_cases hd : isPySpace d
    · simpa [subWS, hd] using h
    · simp [subWS, hd] at h
      subst h
      simp [hd] at hs
  | d :: e :: rest, c, h, hs => by
    by_cases hde : isPySpace d && isPySpace e
    · rw [subWS, if_pos hde] at h
      exact blank_subWS h hs
    · rw [subWS, if_neg hde] at h
      rcases List.mem_cons.1 h with h1 | h1
      · by_cases hd : isPySpace d
        · simpa [hd] using h1
        · rw [if_neg (by simpa using hd)] at h1
          subst h1
          simp [hd] at hs
      · exact blank_subWS h1 hs

theorem subWS_head {d : Char} {rest : List Char} (hd : isPySpace d = false) :
    (subWS (d :: rest)).head? = some d := by
  cases rest with
  | nil => simp [subWS, hd]
  | cons e t => simp [subWS, hd]

/-- `subWS` never produces two adjacent whitespace characters. -/
theorem chain_subWS : ∀ l : List Char, (subWS l).Chain' NoWS2
  | [] => by simp [subWS]
  | [c] => by by_cases hc : isPySpace c <;> simp [subWS, hc, List.chain'_singleton]
  | c :: d :: rest => by
    by_cases hcd : isPySpace c && isPySpace d
    · rw [subWS, if_pos hcd]; exact chain_subWS (d :: rest)
    · rw [subWS, if_neg hcd]
      rw [List.chain'_cons']
      refine ⟨?_, chain_subWS (d :: rest)⟩
      intro y hy
      by_cases hc : isPySpace c
      · have hd : isPySpace d = false := by
          cases hdd : isPySpace d
          · rfl
          · exact absurd (by simp [hc, hdd]) hcd
        rw [subWS_head hd] at hy
        cases hy
        exact Or.inr hd
      · simp only [hc, Bool.false_eq_true, if_false]
        exact Or.inl (by simpa using hc)

/-- On a list with no adjacent whitespace and only ASCII-space whitespace,
`subWS` is the identity. -/
theorem subWS_eq_self : ∀ {l : List Char},
    (∀ c ∈ l, isPySpace c = true → c = ' ') → l.Chain' NoWS2 → subWS l = l
  | [], _, _ => rfl
  | [c], hb, _ => by
    by_cases hc : isPySpace c
    · rw [subWS, if_pos hc, hb c (List.mem_singleton_self c) hc]
    · rw [subWS, if_neg hc]
  | c :: d :: rest, hb, hc => by
    have hcd : NoWS2 c d := (List.chain'_cons.1 hc).1
    have hnot : ¬(isPySpace c && isPySpace d) = true := by
      rcases hcd with h | h <;> simp [h]
    rw [subWS, if_neg hnot]
    have htail : subWS (d :: rest) = d :: rest :=
      subWS_eq_self (fun x hx => hb x (List.mem_cons_of_mem _ hx))
        (List.chain'_cons.1 hc).2
    rw [htail]
    by_cases hsp : isPySpace c
    · rw [if_pos hsp, hb c (List.mem_cons_self _ _) hsp]
    · rw [if_neg hsp]

theorem dropWhile_dropWhile {p : Char → Bool} :
    ∀ l : List Char, (l.dropWhile p).dropWhile p = l.dropWhile p
  | [] => rfl
  | c :: t => by
    by_cases hc : p c
    · rw [List.dropWhile_cons_of_pos hc]
      exact dropWhile_dropWhile t
    · rw [List.dropWhile_cons_of_neg hc, List.dropWhile_cons_of_neg hc]

theorem head_dropWhile_false {p : Char → Bool} :
    ∀ {l : List Char} {a : Char} {rest : List Char},
    l.dropWhile p = a :: rest → p a = false
  | [], a, rest, h => by simp at h
  | c :: t, a, rest, h => by
    by_cases hc : p c
    · rw [List.dropWhile_cons_of_pos hc] at h
      exact head_dropWhile_false h
    · rw [List.dropWhile_cons_of_neg hc] at h
      cases h
      simpa using hc

/-- `stripWS` is idempotent. -/
theorem stripWS_stripWS (l : List Char) : stripWS (stripWS l) = stripWS l := by
  set u := l.dropWhile isPySpace with hu
  set w := u.reverse.dropWhile isPySpace with hw
  have hv : stripWS l = w.reverse := rfl
  obtain ⟨t, ht⟩ : w <:+ u.reverse := hw ▸ List.dropWhile_suffix _
  have hu_eq : u = w.reverse ++ t.reverse := by
    have := congrArg List.reverse ht
    simpa [List.reverse_append] using this.symm
  have h1 : w.reverse.dropWhile isPySpace = w.reverse := by
    cases hcase : w.reverse with
    | nil => rfl
    | cons a rest =>
      have hdw : l.dropWhile isPySpace = a :: (rest ++ t.reverse) := by
        rw [← hu, hu_eq, hcase, List.cons_append]
      have ha : isPySpace a = false := head_dropWhile_false hdw
      rw [List.dropWhile_cons_of_neg (by simp [ha])]
  have h2 : w.reverse.reverse.dropWhile isPySpace = w.reverse.reverse := by
    rw [List.reverse_reverse, hw]
    exact dropWhile_dropWhile _
  rw [hv]
  show ((w.reverse.dropWhile isPySpace).reverse.dropWhile isPySpace).reverse = w.reverse
  rw [h1, h2, List.reverse_reverse]

/-- Characters of `stripWS l` come from `l`. -/
theorem mem_stripWS {c : Char} {l : List Char} (h : c ∈ stripWS l) : c ∈ l := by
  unfold stripWS at h
  rw [List.mem_reverse] at h
  have h1 := (List.dropWhile_sublist isPySpace).subset h
  rw [List.mem_reverse] at h1
  exact (List.dropWhile_sublist isPySpace).subset h1

theorem chain_NoWS2_reverse {l : List Char} (h : l.Chain' NoWS2) :
    (l.reverse).Chain' NoWS2 := by
  rw [List.chain'_reverse]
  exact h.imp fun a b hab => noWS2_flip hab

/-- `stripWS` preserves the no-adjacent-whitespace invariant. -/
theorem chain_stripWS {l : List Char} (h : l.Chain' NoWS2) :
    (stripWS l).Chain' NoWS2 := by
  have h1 : (l.dropWhile isPySpace).Chain' NoWS2 :=
    h.suffix (List.dropWhile_suffix _)
  have h2 := chain_NoWS2_reverse h1
  have h3 : (((l.dropWhile isPySpace).reverse).dropWhile isPySpace).Chain' NoWS2 :=
    h2.suffix (List.dropWhile_suffix _)
  have h4 := chain_NoWS2_reverse h3
  unfold stripWS
  exact h4

theorem map_id_of_mem {α : Type} {f : α → α} :
    ∀ {l : List α}, (∀ c ∈ l, f c = c) → l.map f = l
  | [], _ => rfl
  | c :: t, h => by
    rw [List.map_cons, h c (List.mem_cons_self _ _),
      map_id_of_mem fun x hx => h x (List.mem_cons_of_mem _ hx)]

theorem normalize_text_idem (s : String) :
    normalize_text (normalize_text s) = normalize_text s := by
  unfold normalize_text
  rw [show ∀ l : List Char, (String.mk l).toList = l from fun l => rfl]
  set A := subWS (s.toList.map lowerChar) with hA
  have hmap : (stripWS A).map lowerChar = stripWS A := by
    apply map_id_of_mem
    intro c hc
    rcases mem_subWS (mem_stripWS hc) with h | h
    · subst h; decide
    · rcases List.mem_map.1 h with ⟨d, _, hd⟩
      subst hd
      exact lowerChar_lowerChar d
  have hsub : subWS (stripWS A) = stripWS A := by
    apply subWS_eq_self
    · intro c hc hs
      exact blank_subWS (mem_stripWS hc) hs
    · exact chain_stripWS (chain_subWS _)
  rw [hmap, hsub, stripWS_stripWS]

theorem clean_email_idem (s : String) :
    clean_email (clean_email s) = clean_email s := by
  unfold clean_email
  rw [show ∀ l : List Char, (String.mk l).toList = l from fun l => rfl]
  set M := (s.toList.filter fun c => !(invisibleChars.contains c)).map
    (fun c => if wideSpaceChars.contains c then ' ' else c) with hM
  have key : ∀ c ∈ stripWS M, c ∉ invisibleChars ∧ c ∉ wideSpaceChars := by
    intro c hc
    have hcM : c ∈ M := mem_stripWS hc
    rcases List.mem_map.1 hcM with ⟨d, hdF, hd⟩
    by_cases hw : wideSpaceChars.contains d
    · rw [if_pos hw] at hd
      subst hd
      exact ⟨by decide, by decide⟩
    · rw [if_neg hw] at hd
      subst hd
      have hinv := (List.mem_filter.1 hdF).2
      exact ⟨by simpa using hinv, by simpa using hw⟩
  have hfil : (stripWS M).filter (fun c => !(invisibleChars.contains c)) = stripWS M := by
    rw [List.filter_eq_self]
    intro a ha
    simpa using (key a ha).1
  have hmap : (stripWS M).map (fun c => if wideSpaceChars.contains c then ' ' else c)
      = stripWS M := by
    apply map_id_of_mem
    intro c hc
    rw [if_neg (by simpa using (key c hc).2)]
  rw [hfil, hmap, stripWS_stripWS]

/-- **C8**: applying the identifier cleaner `clean_email` twice gives the same
result as applying it once, and applying the text normalizer `normalize_text`
twice gives the same result as applying it once. -/
theorem clean_and_normalize_idempotent (s : String) :
    clean_email (clean_email s) = clean_email s ∧
    normalize_text (normalize_text s) = normalize_text s :=
  ⟨clean_email_idem s, normalize_text_idem s⟩

/-! ### Substring search and slicing

Python's `p in blob`, `blob.find(p)` and `blob[a:b]` at character
granularity. -/

/-- Index of the first occurrence of `pat` in `l` (`str.find`, returning
`none` for Python's `-1`).  The empty pattern matches at index 0, as in
Python. -/
def subIdx (pat : List Char) : List Char → Option Nat
  | [] => if pat.isPrefixOf ([] : List Char) then some 0 else none
  | c :: t =>
    if pat.isPrefixOf (c :: t) then some 0
    else (subIdx pat t).map (· + 1)

/-- Python's `pat in l`. -/
def containsSub (l pat : List Char) : Bool := (subIdx pat l).isSome

/-- `blob[start:end]` where `start = max(0, pos - ctx)` and
`end = min(len(blob), pos + plen + ctx)` (line 369).  `ctx` comes from
`int(...)` so it is an arbitrary integer; a negative final `end` index is
interpreted from the right, as Python slices do. -/
def gkWindow (l : List Char) (pos plen : Nat) (ctx : ℤ) : List Char :=
  let start : ℤ := max 0 ((pos : ℤ) - ctx)
  let stop : ℤ := min (l.length : ℤ) ((pos : ℤ) + (plen : ℤ) + ctx)
  let stopEff : ℤ := if stop < 0 then max 0 ((l.length : ℤ) + stop) else stop
  (l.drop start.toNat).take (stopEff - start).toNat

/-! ### Tokenised text helpers from the source -/

/-- `split_skills` (lines 98-100): split on `,` `/` `;` `|` `\n`, strip each
piece, drop empties, lowercase. -/
def skillDelims : List Char := [',', '/', ';', '|', '\n']

def splitOnDelims : List Char → List Char → List (List Char)
  | [], cur => [cur.reverse]
  | c :: cs, cur =>
    if skillDelims.contains c then cur.reverse :: splitOnDelims cs []
    else splitOnDelims cs (c :: cur)

def split_skills (s : String) : List String :=
  (splitOnDelims s.toList []).filterMap fun piece =>
    let t := stripWS piece
    if t.isEmpty then none else some (String.mk (t.map lowerChar))

/-- `encode_education` (lines 87-96).  The mapping is looked up on the
normalized label; the source's `mapping.get(s.title(), 0)` fallback can
never hit (every key either has no cased ASCII letter, so `s.title() = s`
forces `s` to be the key itself, or is all-lowercase ASCII, which
`s.title()` can never produce), so the function is a single lookup with
default 0. -/
def eduPairs : List (String × Nat) :=
  [("มัธยม", 0), ("ม.6", 0), ("ปวช", 0), ("hs", 0), ("high school", 0),
   ("ปวส", 1), ("อนุปริญญา", 1), ("bachelor", 1), ("ปริญญาตรี", 1),
   ("ba", 1), ("b.sc", 1), ("b.eng", 1),
   ("master", 2), ("ปริญญาโท", 2), ("m.sc", 2), ("mba", 2),
   ("phd", 3), ("doctorate", 3), ("ปริญญาเอก", 3)]

def encode_education (level : String) : Nat :=
  (eduPairs.lookup (normalize_text level)).getD 0

/-! ### Number formatting used for the reason strings

Python's `f"{x:.1f}"` (round-half-to-even to one decimal) and `str(x)`
(which for the weights appearing in the configs coincides with the
one-decimal rendering). -/

def fmt1 (q : ℚ) : String :=
  let t : ℚ := q * 10
  let f : ℤ := t.floor
  let r : ℚ := t - f
  let n : ℤ :=
    if r < 1/2 then f
    else if 1/2 < r then f + 1
    else if f % 2 = 0 then f else f + 1
  let a : Nat := n.natAbs
  (if n < 0 then "-" else "") ++ toString (a / 10) ++ "." ++ toString (a % 10)

/-- Python `str()` of a config number: an integer renders without decimals,
a one-decimal float as with `fmt1`. -/
def fmtQ (q : ℚ) : String := if q.den = 1 then toString q.num else fmt1 q

/-- Python `int()` truncation toward zero. -/
def intTrunc (q : ℚ) : ℤ := if 0 ≤ q then q.floor else -((-q).floor)

/-! ### The merged configuration and the applicant row

`rule_score` receives `merged_cfg = {**DEFAULT_RULES, **DEPARTMENTS_CFG[d],
**DEFAULT_BASE}` (line 548).  The structure fields are exactly the keys the
scoring code reads; keys read with `.get(k, default)` always exist in the
merged dict (DEFAULT_RULES supplies them), with the source's fallback
defaults equal to the DEFAULT_RULES values, so plain fields are a faithful
model.  `text_fields` is always DEFAULT_BASE's
`["resume_text","cover_letter_text","skills","activities"]`. -/

structure RuleWeights where
  exp_under : ℚ
  exp_meet : ℚ
  edu_under : ℚ
  must_missing : ℚ
  must_all : ℚ
  knockout : ℚ
  nice_each : ℚ
  training_ctx : ℚ
  low_exp_skill : ℚ
  age_out : ℚ
  age_in : ℚ

structure GlobalKnockoutLists where
  hard : List String
  soft : List String
  review : List String

structure GlobalKnockoutWeights where
  hard : ℚ
  soft : ℚ
  review : ℚ

structure MitigationCfg where
  whitelist_phrases : List String
  mitigate_terms : List String
  mitigation_factor : ℚ
  context_window : ℤ

structure RuleCfg where
  rule_weights : RuleWeights
  min_years_experience : ℚ
  min_education_level : String
  must_have_skills : List String
  nice_to_have_skills : List String
  knockout_phrases : List String
  age_range : ℚ × ℚ
  activity_weights : List (String × ℚ)
  max_activity_bonus : ℚ
  training_indicators : List String
  global_knockout : GlobalKnockoutLists
  global_knockout_weights : GlobalKnockoutWeights
  global_knockout_cap : ℚ
  global_mitigation : MitigationCfg

/-- One applicant record, with the fields `rule_score` reads.  The numeric
fields model the result of `_to_num` / the ingestion defaults (missing
`months_experience` is 0, missing `age` is the sentinel -1). -/
structure Row where
  resume_text : String
  cover_letter_text : String
  skills : String
  activities : String
  education_level : String
  years_experience : ℚ
  months_experience : ℚ
  age : ℚ

/-! ### Global knockout evaluator (`_apply_global_knockout`, lines 350-378) -/

/-- The weight actually added for a matched phrase (lines 371-376): if any
mitigating term occurs in the context window AND the tier weight is
negative, the weight is scaled by the mitigation factor, otherwise it is
applied in full. -/
def appliedGKWeight (mterms : List String) (window : List Char)
    (weight factor : ℚ) : ℚ :=
  if (mterms.any fun t => containsSub window t.toList) && decide (weight < 0)
  then weight * factor else weight

/-- The entries `(level name, phrase, level weight)` scanned by the two
nested loops of `_apply_global_knockout` (lines 361-362), in their fixed
hard → soft → review order. -/
def gkEntryList (cfg : RuleCfg) : List (String × String × ℚ) :=
  cfg.global_knockout.hard.map (fun p => ("hard", p, cfg.global_knockout_weights.hard))
    ++ cfg.global_knockout.soft.map (fun p => ("soft", p, cfg.global_knockout_weights.soft))
    ++ cfg.global_knockout.review.map (fun p => ("review", p, cfg.global_knockout_weights.review))

/-- The loop body of `_apply_global_knockout` (lines 362-376) for one
configured phrase, acting on the running `(penalty, hits)` accumulator:
skip empty/unmatched phrases, neutralize every match while any whitelist
phrase occurs in the blob, otherwise add the (possibly mitigated) tier
weight and record the hit. -/
def gkStep (blob : String) (wlist mterms : List String) (factor : ℚ) (ctx : ℤ)
    (acc : ℚ × List String) (e : String × String × ℚ) : ℚ × List String :=
  let p := normalize_text e.2.1
  if p = "" then acc
  else
    match subIdx p.toList blob.toList with
    | none => acc
    | some pos =>
      if wlist.any (fun w => containsSub blob.toList (normalize_text w).toList) then
        (acc.1, acc.2 ++ [p ++ "~whitelist"])
      else
        let window := gkWindow blob.toList pos p.toList.length ctx
        let weight := appliedGKWeight mterms window e.2.2 factor
        if (mterms.any fun t => containsSub window t.toList) && decide (e.2.2 < 0) then
          (acc.1 + weight, acc.2 ++ [p ++ ":" ++ e.1 ++ "*" ++ fmt1 factor])
        else
          (acc.1 + weight, acc.2 ++ [p ++ ":" ++ e.1])

/-- The final clamp (line 377): `if penalty < cap: penalty = cap`. -/
def clampCap (cap penalty : ℚ) : ℚ := if penalty < cap then cap else penalty

/-- `_apply_global_knockout(blob, cfg)` (lines 350-378). -/
def applyGlobalKnockout (blob : String) (cfg : RuleCfg) : ℚ × List String :=
  let wlist := cfg.global_mitigation.whitelist_phrases.map normalize_text
  let mterms := cfg.global_mitigation.mitigate_terms.map normalize_text
  let factor := cfg.global_mitigation.mitigation_factor
  let ctx := cfg.global_mitigation.context_window
  let r := (gkEntryList cfg).foldl (gkStep blob wlist mterms factor ctx) (0, [])
  (clampCap cfg.global_knockout_cap r.1, r.2)

/-- Penalty contribution of a single configured entry: zero if the phrase is
empty, unmatched, or neutralized by the whitelist; otherwise the (possibly
mitigated) tier weight computed from the window around the **first**
occurrence of the phrase. -/
def gkContrib (blob : String) (cfg : RuleCfg) (e : String × String × ℚ) : ℚ :=
  let wlist := cfg.global_mitigation.whitelist_phrases.map normalize_text
  let mterms := cfg.global_mitigation.mitigate_terms.map normalize_text
  let p := normalize_text e.2.1
  if p = "" then 0
  else
    match subIdx p.toList blob.toList with
    | none => 0
    | some pos =>
      if wlist.any (fun w => containsSub blob.toList (normalize_text w).toList) then 0
      else
        appliedGKWeight mterms
          (gkWindow blob.toList pos p.toList.length cfg.global_mitigation.context_window)
          e.2.2 cfg.global_mitigation.mitigation_factor

/-- Hit-trace entry of a single configured entry (`none` when the phrase is
empty or unmatched: exactly one trace string per matching entry). -/
def gkHit (blob : String) (cfg : RuleCfg) (e : String × String × ℚ) : Option String :=
  let wlist := cfg.global_mitigation.whitelist_phrases.map normalize_text
  let mterms := cfg.global_mitigation.mitigate_terms.map normalize_text
  let p := normalize_text e.2.1
  if p = "" then none
  else
    match subIdx p.toList blob.toList with
    | none => none
    | some pos =>
      if wlist.any (fun w => containsSub blob.toList (normalize_text w).toList) then
        some (p ++ "~whitelist")
      else
        let window := gkWindow blob.toList pos p.toList.length cfg.global_mitigation.context_window
        if (mterms.any fun t => containsSub window t.toList) && decide (e.2.2 < 0) then
          some (p ++ ":" ++ e.1 ++ "*" ++ fmt1 cfg.global_mitigation.mitigation_factor)
        else
          some (p ++ ":" ++ e.1)


theorem gkStep_eq (blob : String) (cfg : RuleCfg) (acc : ℚ × List String)
    (e : String × String × ℚ) :
    gkStep blob (cfg.global_mitigation.whitelist_phrases.map normalize_text)
        (cfg.global_mitigation.mitigate_terms.map normalize_text)
        cfg.global_mitigation.mitigation_factor
        cfg.global_mitigation.context_window acc e
      = (acc.1 + gkContrib blob cfg e, acc.2 ++ (gkHit blob cfg e).toList) := by
  unfold gkStep gkContrib gkHit
  by_cases hp : normalize_text e.2.1 = ""
  · simp only [if_pos hp]
    simp
  · simp only [if_neg hp]
    cases hidx : subIdx (normalize_text e.2.1).toList blob.toList with
    | none => simp only [hidx]; simp
    | some pos =>
      simp only [hidx]
      by_cases hw : ((cfg.global_mitigation.whitelist_phrases.map normalize_text).any
          fun w => containsSub blob.toList (normalize_text w).toList) = true
      · simp only [if_pos hw]
        simp
      · simp only [if_neg hw]
        by_cases hmit : (((cfg.global_mitigation.mitigate_terms.map normalize_text).any
            fun t => containsSub
              (gkWindow blob.toList pos (normalize_text e.2.1).toList.length
                cfg.global_mitigation.context_window) t.toList) && decide (e.2.2 < 0)) = true
        · simp only [if_pos hmit]
          simp
        · simp only [if_neg hmit]
          simp

theorem gkFold_eq (blob : String) (cfg : RuleCfg) :
    ∀ (es : List (String × String × ℚ)) (acc : ℚ × List String),
    es.foldl (gkStep blob (cfg.global_mitigation.whitelist_phrases.map normalize_text)
        (cfg.global_mitigation.mitigate_terms.map normalize_text)
        cfg.global_mitigation.mitigation_factor
        cfg.global_mitigation.context_window) acc
      = (acc.1 + (es.map (gkContrib blob cfg)).sum,
         acc.2 ++ es.filterMap (gkHit blob cfg))
  | [], acc => by simp
  | e :: t, acc => by
    rw [List.foldl_cons, gkStep_eq blob cfg acc e, gkFold_eq blob cfg t]
    cases hh : gkHit blob cfg e with
    | none => simp [List.filterMap_cons, hh, add_assoc]
    | some s => simp [List.filterMap_cons, hh, add_assoc]

/-- Structure theorem for `_apply_global_knockout`: the returned penalty is
the clamped sum over configured entries of per-entry contributions, and the
hit trace has exactly one entry per matching configured phrase. -/
theorem applyGlobalKnockout_eq (blob : String) (cfg : RuleCfg) :
    applyGlobalKnockout blob cfg
      = (clampCap cfg.global_knockout_cap
          ((gkEntryList cfg).map (gkContrib blob cfg)).sum,
         (gkEntryList cfg).filterMap (gkHit blob cfg)) := by
  unfold applyGlobalKnockout
  dsimp only
  rw [gkFold_eq blob cfg]
  simp

/-! ### Training-context regex (`rule_score` lines 415-421)

`ps1 = (ind1|...|indK).{0,40}\b skill \b` and
`ps2 = \b skill \b.{0,40}(ind1|...|indK)`, searched anywhere in the blob
(`re.search`).  `.` does not match a newline; `\b` is a word boundary.
`wordChar` models Python's `\w` over the character repertoire of this app:
ASCII alphanumerics, underscore, and the Thai alphanumeric ranges. -/

def wordChar (c : Char) : Bool :=
  c.isAlphanum || c == '_' ||
  (0x0E01 ≤ c.toNat && c.toNat ≤ 0x0E30) ||
  (c.toNat == 0x0E32 || c.toNat == 0x0E33) ||
  (0x0E40 ≤ c.toNat && c.toNat ≤ 0x0E46) ||
  (0x0E50 ≤ c.toNat && c.toNat ≤ 0x0E59)

/-- `pat` matches literally at position `i` of `l`. -/
def matchAt (l pat : List Char) (i : Nat) : Bool :=
  decide (i ≤ l.length) && pat.isPrefixOf (l.drop i)

/-- Word boundary at position `i` of `l`. -/
def boundaryAt (l : List Char) (i : Nat) : Bool :=
  let wb := decide (1 ≤ i) && ((l.get? (i - 1)).any wordChar)
  let wa := (l.get? i).any wordChar
  wb != wa

/-- The `g` characters starting at position `a` are all matched by `.`
(anything but a newline). -/
def gapOk (l : List Char) (a g : Nat) : Bool :=
  decide (a + g ≤ l.length) && ((l.drop a).take g).all (· != '\n')

/-- `ps1.search(blob)`: some training indicator, then at most 40 arbitrary
non-newline characters, then a word boundary, the skill, and a word
boundary. -/
def ps1Match (inds : List String) (s : List Char) (l : List Char) : Bool :=
  (List.range (l.length + 1)).any fun i =>
    inds.any fun ind =>
      matchAt l ind.toList i &&
      (List.range 41).any fun g =>
        let j := i + ind.toList.length + g
        gapOk l (i + ind.toList.length) g && boundaryAt l j &&
        matchAt l s j && boundaryAt l (j + s.length)

/-- `ps2.search(blob)`: a word boundary, the skill, a word boundary, then at
most 40 arbitrary non-newline characters, then some training indicator. -/
def ps2Match (inds : List String) (s : List Char) (l : List Char) : Bool :=
  (List.range (l.length + 1)).any fun j =>
    boundaryAt l j && matchAt l s j && boundaryAt l (j + s.length) &&
    (List.range 41).any fun g =>
      gapOk l (j + s.length) g &&
      inds.any fun ind => matchAt l ind.toList (j + s.length + g)

/-! ### The rule blocks of `rule_score` (lines 380-458)

Each block is the translation of one contiguous section of `rule_score`; the
function itself chains them in the source's order, summing the deltas and
concatenating the reason lists exactly as the sequential `score +=` /
`reasons.append` calls do. -/

/-- Experience floor (lines 387-393). -/
def expBlock (total : ℚ) (cfg : RuleCfg) : ℚ × List String :=
  if total < cfg.min_years_experience then
    (cfg.rule_weights.exp_under,
     ["ประสบการณ์ " ++ fmt1 total ++ " ปี < " ++ fmtQ cfg.min_years_experience ++ " ปี"])
  else
    (cfg.rule_weights.exp_meet, ["ประสบการณ์ " ++ fmt1 total ++ " ปี ≥ เกณฑ์"])

/-- Education floor (lines 395-396). -/
def eduBlock (level : String) (cfg : RuleCfg) : ℚ × List String :=
  if encode_education level < encode_education cfg.min_education_level then
    (cfg.rule_weights.edu_under, ["การศึกษา < " ++ cfg.min_education_level])
  else (0, [])

/-- Must-have skills (lines 398-403). -/
def mustBlock (skills : List String) (cfg : RuleCfg) : ℚ × List String :=
  let miss := cfg.must_have_skills.filter fun s => !(skills.contains s)
  if miss.isEmpty then (cfg.rule_weights.must_all, ["ครบสกิลจำเป็น"])
  else (cfg.rule_weights.must_missing,
        ["ขาดสกิลจำเป็น: " ++ String.intercalate ", " miss])

/-- Global knockout contribution and its single reason line (lines 407-409). -/
def gkBlock (blob : String) (cfg : RuleCfg) : ℚ × List String :=
  let r := applyGlobalKnockout blob cfg
  (r.1, if r.2.isEmpty then [] else ["คำต้องห้ามรวม: " ++ String.intercalate ", " r.2])

/-- Department knockout phrases (lines 411-413), one hit per configured
phrase found in the blob. -/
def deptKnockoutBlock (blob : String) (cfg : RuleCfg) : ℚ × List String :=
  let hits := cfg.knockout_phrases.filter fun ph =>
    containsSub blob.toList (normalize_text ph).toList
  (cfg.rule_weights.knockout * hits.length,
   hits.map fun ph => "คำต้องห้ามตำแหน่ง: " ++ ph)

/-- Training-context suppression (lines 415-422), one hit per must-have
skill found near a training indicator. -/
def trainingBlock (blob : String) (cfg : RuleCfg) : ℚ × List String :=
  let hits := cfg.must_have_skills.filter fun s =>
    ps1Match cfg.training_indicators s.toList blob.toList ||
    ps2Match cfg.training_indicators s.toList blob.toList
  (cfg.rule_weights.training_ctx * hits.length,
   hits.map fun s => s ++ ": พบในบริบทการอบรม/คอร์ส")

/-- Nice-to-have bonus (lines 424-426). -/
def niceBlock (skills : List String) (cfg : RuleCfg) : ℚ × List String :=
  let nice := cfg.nice_to_have_skills.filter fun s => skills.contains s
  if nice.isEmpty then (0, [])
  else (cfg.rule_weights.nice_each * nice.length,
        ["มีสกิลเสริม: " ++ String.intercalate ", " nice])

/-- Low-experience / skill inconsistency (lines 428-431). -/
def lowExpBlock (skills : List String) (total : ℚ) (cfg : RuleCfg) : ℚ × List String :=
  let lowExp := max (1/2 : ℚ) (cfg.min_years_experience / 2)
  let hits := cfg.must_have_skills.filter fun s =>
    skills.contains s && decide (total < lowExp)
  (cfg.rule_weights.low_exp_skill * hits.length,
   hits.map fun s => "มี " ++ s ++ " แต่ประสบการณ์รวม < " ++ fmt1 lowExp ++ " ปี")

/-- Age fit (lines 433-441). -/
def ageBlock (age : ℚ) (cfg : RuleCfg) : ℚ × List String :=
  if 0 ≤ age then
    if ¬(cfg.age_range.1 ≤ age ∧ age ≤ cfg.age_range.2) then
      (cfg.rule_weights.age_out,
       ["อายุ " ++ toString (intTrunc age) ++ " ปี อยู่นอกช่วง (" ++
        fmtQ cfg.age_range.1 ++ "–" ++ fmtQ cfg.age_range.2 ++ ")"])
    else
      (cfg.rule_weights.age_in,
       ["อายุ " ++ toString (intTrunc age) ++ " ปี อยู่ในช่วงที่กำหนด"])
  else (0, ["ไม่ระบุอายุ (ไม่คิดคะแนน)"])

/-- `any(normalize_text(ind) in acts for ind in training_indicators)`
(line 446). -/
def isTrainingLikeActivity (activities : String) (cfg : RuleCfg) : Bool :=
  cfg.training_indicators.any fun ind =>
    containsSub (normalize_text activities).toList (normalize_text ind).toList

/-- Activity bonus (lines 443-456): sum the weights of the configured
activity phrases found in the normalized activities text; a positive sum is
suppressed entirely when the activities read as training, otherwise capped
at `max_activity_bonus`. -/
def activityBlock (activities : String) (cfg : RuleCfg) : ℚ × List String :=
  let acts := normalize_text activities
  let matched := cfg.activity_weights.filter fun kw =>
    containsSub acts.toList (normalize_text kw.1).toList
  let bonus0 : ℚ := (matched.map fun kw => kw.2).sum
  let hitStrs := matched.map fun kw => kw.1 ++ "+" ++ fmtQ kw.2
  if 0 < bonus0 then
    if isTrainingLikeActivity activities cfg then
      (0, ["กิจกรรมมีลักษณะอบรม: ไม่ได้โบนัสกิจกรรม"])
    else
      let bonus := min bonus0 cfg.max_activity_bonus
      (bonus,
       ["กิจกรรม: " ++ String.intercalate ", " hitStrs ++
        (if 0 < bonus then " (รวม +" ++ fmt1 bonus ++ ")" else "")])
  else (0, [])

/-- `total = y + m / 12.0` (line 389). -/
def totalYears (row : Row) : ℚ := row.years_experience + row.months_experience / 12

/-- `blob = " ".join(normalize_text(str(row.get(f,""))) for f in cfg["text_fields"])`
(line 405), with `text_fields` fixed by `DEFAULT_BASE`. -/
def rowBlob (row : Row) : String :=
  String.intercalate " "
    [normalize_text row.resume_text, normalize_text row.cover_letter_text,
     normalize_text row.skills, normalize_text row.activities]

/-- `rule_score(row, cfg)` (lines 380-458): the ten rule blocks evaluated in
the source's fixed order, accumulating one signed score and the ordered
reason list. -/
def rule_score (row : Row) (cfg : RuleCfg) : ℚ × List String :=
  let e := expBlock (totalYears row) cfg
  let d := eduBlock row.education_level cfg
  let mu := mustBlock (split_skills row.skills) cfg
  let g := gkBlock (rowBlob row) cfg
  let k := deptKnockoutBlock (rowBlob row) cfg
  let t := trainingBlock (rowBlob row) cfg
  let n := niceBlock (split_skills row.skills) cfg
  let lo := lowExpBlock (split_skills row.skills) (totalYears row) cfg
  let a := ageBlock row.age cfg
  let act := activityBlock row.activities cfg
  (e.1 + d.1 + mu.1 + g.1 + k.1 + t.1 + n.1 + lo.1 + a.1 + act.1,
   e.2 ++ d.2 ++ mu.2 ++ g.2 ++ k.2 ++ t.2 ++ n.2 ++ lo.2 ++ a.2 ++ act.2)

/-- The score accumulated before the activity-bonus rule runs. -/
def preActivityScore (row : Row) (cfg : RuleCfg) : ℚ :=
  (expBlock (totalYears row) cfg).1 + (eduBlock row.education_level cfg).1 +
  (mustBlock (split_skills row.skills) cfg).1 + (gkBlock (rowBlob row) cfg).1 +
  (deptKnockoutBlock (rowBlob row) cfg).1 + (trainingBlock (rowBlob row) cfg).1 +
  (niceBlock (split_skills row.skills) cfg).1 +
  (lowExpBlock (split_skills row.skills) (totalYears row) cfg).1 +
  (ageBlock row.age cfg).1

/-! ### Score blender and bucketing -/

/-- `bucket_level` (lines 460-461): pass iff `final_priority >= pass_cut`. -/
def bucket_level {α : Type} [LinearOrder α] (final_priority pass_cut : α) : String :=
  if final_priority ≥ pass_cut then "ผ่าน" else "ไม่ผ่าน"

/-- The blend computed in the screening loop (line 550):
`final = 0.7 * proba + 0.3 * (1 / (1 + np.exp(-rscore)))`. -/
noncomputable def blendFinal (proba rscore : ℝ) : ℝ :=
  0.7 * proba + 0.3 * (1 / (1 + Real.exp (-rscore)))

/-- Spec formula (§4.4): `sigmoid(x) = 1 / (1 + e^-x)`. -/
noncomputable def sigmoid (x : ℝ) : ℝ := 1 / (1 + Real.exp (-x))

/-! ### Claim theorems for the global knockout evaluator -/

/-- **C2**: for every text blob and every configuration, the penalty
returned by `_apply_global_knockout` is `≥` the configured cap — the cap is
a floor on the total penalty, applied once after summation, not per
phrase. -/
theorem gk_penalty_ge_cap (blob : String) (cfg : RuleCfg) :
    cfg.global_knockout_cap ≤ (applyGlobalKnockout blob cfg).1 := by
  unfold applyGlobalKnockout
  dsimp only
  unfold clampCap
  split
  · exact le_refl _
  · next h => exact le_of_not_lt h

/-- Every per-entry contribution is `0`, the tier weight, or the tier weight
scaled by the mitigation factor. -/
theorem gkContrib_cases (blob : String) (cfg : RuleCfg) (e : String × String × ℚ) :
    gkContrib blob cfg e = 0 ∨ gkContrib blob cfg e = e.2.2 ∨
    gkContrib blob cfg e = e.2.2 * cfg.global_mitigation.mitigation_factor := by
  unfold gkContrib appliedGKWeight
  by_cases hp : normalize_text e.2.1 = ""
  · rw [if_pos hp]
    simp
  · simp only [if_neg hp]
    cases hidx : subIdx (normalize_text e.2.1).toList blob.toList with
    | none => simp only [hidx]; exact Or.inl (by trivial)
    | some pos =>
      simp only [hidx]
      by_cases hw : ((cfg.global_mitigation.whitelist_phrases.map normalize_text).any
          fun w => containsSub blob.toList (normalize_text w).toList) = true
      · rw [if_pos hw]
        exact Or.inl (by trivial)
      · simp only [if_neg hw]
        by_cases hmit : (((cfg.global_mitigation.mitigate_terms.map normalize_text).any
            fun t => containsSub
              (gkWindow blob.toList pos (normalize_text e.2.1).toList.length
                cfg.global_mitigation.context_window) t.toList) && decide (e.2.2 < 0)) = true
        · rw [if_pos hmit]
          exact Or.inr (Or.inr rfl)
        · rw [if_neg hmit]
          exact Or.inr (Or.inl rfl)

/-- **C9**: the evaluator's result decomposes as the clamped sum of one
contribution per configured `(tier, phrase)` entry (so a phrase occurring
many times in the blob is counted once: `gkContrib`/`gkHit` only look at the
first occurrence, via `subIdx`), the hit trace has exactly one string per
matching entry, and each entry contributes `0`, its tier weight, or its
mitigated tier weight. -/
theorem gk_once_per_phrase (blob : String) (cfg : RuleCfg) :
    applyGlobalKnockout blob cfg
      = (clampCap cfg.global_knockout_cap
          ((gkEntryList cfg).map (gkContrib blob cfg)).sum,
         (gkEntryList cfg).filterMap (gkHit blob cfg)) ∧
    ∀ e ∈ gkEntryList cfg,
      gkContrib blob cfg e = 0 ∨ gkContrib blob cfg e = e.2.2 ∨
      gkContrib blob cfg e = e.2.2 * cfg.global_mitigation.mitigation_factor :=
  ⟨applyGlobalKnockout_eq blob cfg, fun e _ => gkContrib_cases blob cfg e⟩

theorem gk_whitelist_cond {blob : String} {cfg : RuleCfg}
    (hw : ∃ w ∈ cfg.global_mitigation.whitelist_phrases,
      containsSub blob.toList (normalize_text w).toList = true) :
    ((cfg.global_mitigation.whitelist_phrases.map normalize_text).any
      fun w => containsSub blob.toList (normalize_text w).toList) = true := by
  rcases hw with ⟨w, hwmem, hwsub⟩
  rw [List.any_eq_true]
  refine ⟨normalize_text w, List.mem_map_of_mem _ hwmem, ?_⟩
  rw [normalize_text_idem w]
  exact hwsub

/-- **C3**: if any (normalized) whitelist phrase occurs anywhere in the
blob, every matching global knockout phrase contributes exactly zero —
whatever its tier or mitigation window — so the pre-clamp penalty is 0, and
every recorded hit is marked as neutralized (`...~whitelist`). -/
theorem gk_whitelist_total (blob : String) (cfg : RuleCfg)
    (hw : ∃ w ∈ cfg.global_mitigation.whitelist_phrases,
      containsSub blob.toList (normalize_text w).toList = true) :
    (applyGlobalKnockout blob cfg).1 = clampCap cfg.global_knockout_cap 0 ∧
    ∀ h ∈ (applyGlobalKnockout blob cfg).2, ∃ p, h = p ++ "~whitelist" := by
  have hcond := gk_whitelist_cond hw
  have hc0 : ∀ e, gkContrib blob cfg e = 0 := by
    intro e
    unfold gkContrib
    by_cases hp : normalize_text e.2.1 = ""
    · rw [if_pos hp]
    · simp only [if_neg hp]
      cases hidx : subIdx (normalize_text e.2.1).toList blob.toList with
      | none => simp only [hidx]
      | some pos =>
        simp only [hidx]
        rw [if_pos hcond]
  have hh : ∀ e s, gkHit blob cfg e = some s → ∃ p, s = p ++ "~whitelist" := by
    intro e s he
    unfold gkHit at he
    by_cases hp : normalize_text e.2.1 = ""
    · rw [if_pos hp] at he
      cases he
    · simp only [if_neg hp] at he
      cases hidx : subIdx (normalize_text e.2.1).toList blob.toList with
      | none =>
        simp only [hidx] at he
        cases he
      | some pos =>
        simp only [hidx] at he
        rw [if_pos hcond] at he
        exact ⟨normalize_text e.2.1, (Option.some_inj.1 he).symm⟩
  constructor
  · rw [applyGlobalKnockout_eq]
    have hz : ((gkEntryList cfg).map (gkContrib blob cfg)).sum = 0 := by
      apply List.sum_eq_zero
      intro x hx
      rcases List.mem_map.1 hx with ⟨e, _, he⟩
      rw [← he, hc0 e]
    rw [hz]
  · intro h hmem
    rw [applyGlobalKnockout_eq] at hmem
    rcases List.mem_filterMap.1 hmem with ⟨e, _, he⟩
    exact hh e h he

/-- **C6** (amended): mitigation is never applied to a non-negative tier
weight; when a mitigating term occurs in the window and the weight is
negative the weight is multiplied by the configured factor; and provided the
configured factor lies in `[0, 1]` this scales the negative weight toward
zero — it neither flips the sign nor amplifies the magnitude.  (For a factor
outside `[0, 1]` the code performs the same multiplication unguarded, which
can amplify or flip; see the counterexample.) -/
theorem appliedGKWeight_spec (mterms : List String) (window : List Char)
    (weight factor : ℚ) :
    (0 ≤ weight → appliedGKWeight mterms window weight factor = weight) ∧
    ((mterms.any fun t => containsSub window t.toList) = true → weight < 0 →
      appliedGKWeight mterms window weight factor = weight * factor) ∧
    (weight < 0 → 0 ≤ factor → factor ≤ 1 →
      weight ≤ appliedGKWeight mterms window weight factor ∧
      appliedGKWeight mterms window weight factor ≤ 0) := by
  unfold appliedGKWeight
  refine ⟨?_, ?_, ?_⟩
  · intro h0
    rw [if_neg]
    simp [not_lt.2 h0]
  · intro hm hneg
    rw [if_pos (show ((mterms.any fun t => containsSub window t.toList)
      && decide (weight < 0)) = true by rw [hm, decide_eq_true hneg]; rfl)]
  · intro hneg hf0 hf1
    by_cases hc : ((mterms.any fun t => containsSub window t.toList)
        && decide (weight < 0)) = true
    · rw [if_pos hc]
      constructor
      · nlinarith [mul_nonneg (sub_nonneg.2 hf1) (neg_nonneg.2 (le_of_lt hneg))]
      · exact mul_nonpos_iff.2 (Or.inr ⟨le_of_lt hneg, hf0⟩)
    · rw [if_neg hc]
      exact ⟨le_refl _, le_of_lt hneg⟩

/-! ### Claim theorems for the score blender -/

/-- **C5**: the final priority computed in the screening loop equals
`0.7 * p + 0.3 * sigmoid(rule_score)` with the 0.7/0.3 weighting fixed, and
`bucket_level` labels pass exactly when `final ≥ pass_cut`, with equality
classified as pass. -/
theorem blend_bucket_spec :
    (∀ p s : ℝ, blendFinal p s = 0.7 * p + 0.3 * sigmoid s) ∧
    (∀ f cut : ℝ, bucket_level f cut = "ผ่าน" ↔ f ≥ cut) ∧
    (∀ f : ℝ, bucket_level f f = "ผ่าน") := by
  have hne : ("ไม่ผ่าน" : String) ≠ "ผ่าน" := by decide
  refine ⟨fun p s => rfl, fun f cut => ?_, fun f => ?_⟩
  · unfold bucket_level
    split
    · next h => simp [h]
    · next h => simp [h, hne]
  · unfold bucket_level
    rw [if_pos (le_refl f)]

/-! ### Claim theorems for `rule_score` -/

/-- **C7**: the reasons list returned by `rule_score` is exactly the
concatenation, in the source's fixed evaluation order, of the reasons of:
experience, education, must-have skills, global knockouts, department
knockout phrases, training-context checks, nice-to-have bonus,
low-experience-inconsistency, age fit, and activity bonus. -/
theorem rule_score_reasons_order (row : Row) (cfg : RuleCfg) :
    (rule_score row cfg).2
      = (expBlock (totalYears row) cfg).2 ++ (eduBlock row.education_level cfg).2
        ++ (mustBlock (split_skills row.skills) cfg).2 ++ (gkBlock (rowBlob row) cfg).2
        ++ (deptKnockoutBlock (rowBlob row) cfg).2 ++ (trainingBlock (rowBlob row) cfg).2
        ++ (niceBlock (split_skills row.skills) cfg).2
        ++ (lowExpBlock (split_skills row.skills) (totalYears row) cfg).2
        ++ (ageBlock row.age cfg).2 ++ (activityBlock row.activities cfg).2 := rfl

/-- **C10**: the experience rule, the must-have-skills rule, and the age
rule each append exactly one reason on every input, so `rule_score` always
returns at least three reasons. -/
theorem rule_score_reasons_nonempty (row : Row) (cfg : RuleCfg) :
    (expBlock (totalYears row) cfg).2.length = 1 ∧
    (mustBlock (split_skills row.skills) cfg).2.length = 1 ∧
    (ageBlock row.age cfg).2.length = 1 ∧
    3 ≤ (rule_score row cfg).2.length := by
  have he : (expBlock (totalYears row) cfg).2.length = 1 := by
    unfold expBlock; split <;> rfl
  have hm : (mustBlock (split_skills row.skills) cfg).2.length = 1 := by
    unfold mustBlock
    dsimp only
    split <;> rfl
  have ha : (ageBlock row.age cfg).2.length = 1 := by
    unfold ageBlock
    split
    · split <;> rfl
    · rfl
  refine ⟨he, hm, ha, ?_⟩
  show 3 ≤ (rule_score row cfg).2.length
  unfold rule_score
  dsimp only
  simp only [List.length_append]
  omega

/-- **C4**: the activity bonus applied by `rule_score` is at most
`max_activity_bonus` (the merged policies of this app all have a
non-negative cap, which the spec's §9 declares a validity requirement), it
is exactly zero whenever the normalized activities text contains a training
indicator, and it is exactly the amount added to the score after the nine
other rules. -/
theorem activity_bonus_capped (row : Row) (cfg : RuleCfg)
    (hmax : 0 ≤ cfg.max_activity_bonus) :
    (activityBlock row.activities cfg).1 ≤ cfg.max_activity_bonus ∧
    (isTrainingLikeActivity row.activities cfg = true →
      (activityBlock row.activities cfg).1 = 0) ∧
    (rule_score row cfg).1
      = preActivityScore row cfg + (activityBlock row.activities cfg).1 := by
  refine ⟨?_, ?_, rfl⟩
  · unfold activityBlock
    dsimp only
    split
    · split
      · exact hmax
      · exact min_le_right _ _
    · exact hmax
  · intro ht
    unfold activityBlock
    dsimp only
    rw [if_pos ht]
    split <;> rfl

/-- **C1** (amended): enlarging the applicant's skill set can only move the
must-have-skills component of `rule_score` from the fixed `must_missing`
delta to the `must_all` delta (for weight tables with
`must_missing ≤ must_all`, as in `DEFAULT_RULES`), and once every must-have
skill is present the delta is exactly `must_all`.  The **full** `rule_score`
is not monotone in the skill set: adding a missing must-have skill can also
trigger the low-experience-inconsistency penalty, see the counterexample. -/
theorem mustBlock_monotone (cfg : RuleCfg) (s1 s2 : List String)
    (hsub : ∀ x, x ∈ s1 → x ∈ s2)
    (hw : cfg.rule_weights.must_missing ≤ cfg.rule_weights.must_all) :
    (mustBlock s1 cfg).1 ≤ (mustBlock s2 cfg).1 ∧
    ((∀ s ∈ cfg.must_have_skills, s ∈ s2) →
      (mustBlock s2 cfg).1 = cfg.rule_weights.must_all) := by
  have hchar : ∀ (sk : List String),
      (cfg.must_have_skills.filter fun s => !(sk.contains s)).isEmpty = true
        ↔ ∀ s ∈ cfg.must_have_skills, s ∈ sk := by
    intro sk
    rw [List.isEmpty_iff, List.filter_eq_nil_iff]
    constructor
    · intro h s hs
      have := h s hs
      simpa [List.elem_iff] using this
    · intro h s hs
      simpa [List.elem_iff] using h s hs
  constructor
  · unfold mustBlock
    dsimp only
    by_cases h2 : (cfg.must_have_skills.filter fun s => !(s2.contains s)).isEmpty = true
    · rw [if_pos h2]
      split
      · exact le_refl _
      · exact hw
    · rw [if_neg h2]
      have h1 : ¬(cfg.must_have_skills.filter fun s => !(s1.contains s)).isEmpty = true := by
        intro h1
        exact h2 ((hchar s2).2 fun s hs => hsub s ((hchar s1).1 h1 s hs))
      rw [if_neg h1]
  · intro hall
    unfold mustBlock
    dsimp only
    rw [if_pos ((hchar s2).2 hall)]

/-! ### Concrete configurations for witnesses and counterexamples

`smallCfg` is a minimal configuration exercising the knockout machinery;
`ampCfg` is `smallCfg` with `mitigation_factor = 2` (a value the code
accepts unguarded); `programmerCfg` is the full merged configuration
`{**DEFAULT_RULES, **DEPARTMENTS_CFG["Programmer"], **DEFAULT_BASE}` the app
builds at line 548. -/

def defaultRuleWeights : RuleWeights :=
  { exp_under := -1, exp_meet := 1/5, edu_under := -1, must_missing := -3/2,
    must_all := 1/2, knockout := -2, nice_each := 3/10, training_ctx := -1/2,
    low_exp_skill := -3/10, age_out := -1, age_in := 1/5 }

def smallCfg : RuleCfg :=
  { rule_weights := defaultRuleWeights
    min_years_experience := 1
    min_education_level := "ปริญญาตรี"
    must_have_skills := ["a", "b"]
    nice_to_have_skills := []
    knockout_phrases := []
    age_range := (20, 40)
    activity_weights := [("club", 1/2)]
    max_activity_bonus := 6/5
    training_indicators := ["training"]
    global_knockout := { hard := ["bad"], soft := [], review := [] }
    global_knockout_weights := { hard := -2, soft := -1, review := 0 }
    global_knockout_cap := -5/2
    global_mitigation :=
      { whitelist_phrases := ["ok"], mitigate_terms := ["but"],
        mitigation_factor := 1/2, context_window := 50 } }

def ampCfg : RuleCfg :=
  { smallCfg with
    global_knockout_cap := -10
    global_mitigation :=
      { whitelist_phrases := [], mitigate_terms := ["but"],
        mitigation_factor := 2, context_window := 50 } }

/-- **C6** (counterexample): with a configured mitigation factor of 2 the
code doubles a negative tier weight instead of shrinking it: on the blob
`"bad but"` the single hard phrase `"bad"` (tier weight -2) is recorded as
mitigated, yet the resulting penalty -4 is *more* negative than the full
tier weight — mitigation amplified the penalty instead of reducing its
magnitude. -/
theorem gk_mitigation_amplifies :
    (applyGlobalKnockout "bad but" ampCfg).1 < ampCfg.global_knockout_weights.hard ∧
    (applyGlobalKnockout "bad but" ampCfg).2 = ["bad:hard*2.0"] := by
  constructor
  · decide
  · decide

/-- `{**DEFAULT_RULES, **DEPARTMENTS_CFG["Programmer"], **DEFAULT_BASE}`:
the merged policy the screening loop builds for the Programmer department
(lines 200-206, 226-239, 548). -/
def programmerCfg : RuleCfg :=
  { rule_weights := defaultRuleWeights
    min_years_experience := 0
    min_education_level := "ปริญญาตรี"
    must_have_skills := ["php", "python", "javascript", "sql", "debugging", "agile"]
    nice_to_have_skills := ["ux/ui", "cloud", "aws", "azure", "cybersecurity"]
    knockout_phrases := ["ไม่ชอบทำงานเป็นทีม", "ไม่ถนัดแก้โค้ดคนอื่น",
      "ไม่อยากเรียนรู้เทคโนโลยีใหม่"]
    age_range := (21, 35)
    activity_weights := [("โปรเจกต์", 3/5), ("project", 3/5), ("hackathon", 3/5),
      ("แข่งขันเขียนโปรแกรม", 3/5), ("open source", 3/5), ("github", 1/2),
      ("สร้างแอป", 3/5), ("web app", 1/2), ("mobile app", 1/2)]
    max_activity_bonus := 6/5
    training_indicators := ["อบรม", "สัมมนา", "เวิร์กชอป", "workshop", "training",
      "คอร์ส", "course", "certificate", "certification"]
    global_knockout :=
      { hard := ["ด่าบริษัทเก่า", "ด่าหัวหน้าเก่า", "โกง", "ทุจริต", "ปลอมเอกสาร",
          "เปิดเผยความลับบริษัท", "เกลียดลูกค้า", "ก้าวร้าว", "ใช้ความรุนแรง"]
        soft := ["ไม่ชอบทำงานเป็นทีม", "ไม่ชอบเจอคนเยอะ", "ไม่ถนัดตัวเลข", "มาสายบ่อย",
          "ไม่พร้อมทำงานล่วงเวลา", "ไม่พร้อมทำงานวันหยุด", "ไม่ชอบงานซ้ำ ๆ",
          "ไม่อยากเรียนรู้เพิ่ม", "ไม่ถนัดแก้โค้ดคนอื่น", "ไม่ละเอียด", "ไม่ละเอียดรอบคอบ"]
        review := ["ลาออกเพราะขัดแย้งส่วนตัว", "ไม่ถูกกับหัวหน้าเก่า", "ลาออกทันที",
          "ทำงานไม่นาน"] }
    global_knockout_weights := { hard := -2, soft := -1, review := 0 }
    global_knockout_cap := -5/2
    global_mitigation :=
      { whitelist_phrases := ["เคยไม่ถนัดตัวเลข แต่กำลังพัฒนา", "เคยไม่ถนัดตัวเลข แต่ฝึกจนทำได้",
          "เคยไม่ชอบทำงานเป็นทีม แต่ปรับตัวได้", "แม้ไม่มีประสบการณ์ แต่เรียนรู้เร็ว",
          "ยอมรับข้อผิดพลาดและปรับปรุง"]
        mitigate_terms := ["แต่", "กำลังพัฒนา", "กำลังเรียนรู้", "พัฒนา", "ปรับปรุง",
          "ตั้งใจฝึก", "เรียนเพิ่ม", "จนทำได้", "แก้ไข"]
        mitigation_factor := 1/2
        context_window := 50 } }

/-- An applicant with no skills, a bachelor's degree, no experience, age in
range. -/
def rowNoSkills : Row :=
  { resume_text := "", cover_letter_text := "", skills := "", activities := "",
    education_level := "ปริญญาตรี", years_experience := 0,
    months_experience := 0, age := 24 }

/-- The same applicant after adding the missing must-have skill `"php"` to
the skill set. -/
def rowWithPhp : Row := { rowNoSkills with skills := "php" }

/-- **C1** (counterexample): adding the missing must-have skill `"php"` to
the applicant's skill set **decreases** `rule_score` under the Programmer
merged policy: the row still misses other must-have skills, so the fixed
`must_missing` delta is unchanged, while the new skill now triggers the
low-experience-inconsistency penalty (`low_exp_skill`, -0.3): the score
drops from -1.1 to -1.4. -/
theorem add_must_skill_decreases_score :
    programmerCfg.must_have_skills.contains "php" = true ∧
    split_skills rowNoSkills.skills = [] ∧
    split_skills rowWithPhp.skills = ["php"] ∧
    (rule_score rowWithPhp programmerCfg).1 < (rule_score rowNoSkills programmerCfg).1 := by
  refine ⟨by decide, by decide, by decide, by decide⟩

/-- Witness instantiating `mustBlock_monotone`: adding both missing
must-have skills moves the delta from `must_missing` to `must_all`. -/
theorem mustBlock_monotone_witness :
    smallCfg.rule_weights.must_missing ≤ smallCfg.rule_weights.must_all ∧
    ((mustBlock [] smallCfg).1 ≤ (mustBlock ["a", "b"] smallCfg).1 ∧
     ((∀ s ∈ smallCfg.must_have_skills, s ∈ (["a", "b"] : List String)) →
       (mustBlock ["a", "b"] smallCfg).1 = smallCfg.rule_weights.must_all)) :=
  ⟨by decide,
   mustBlock_monotone smallCfg [] ["a", "b"] (fun x hx => nomatch hx) (by decide)⟩

/-- Witness instantiating `gk_whitelist_total`: the blob `"bad ok"` matches
the hard phrase `"bad"`, but the whitelist phrase `"ok"` is present, so the
hit is neutralized and the penalty is zero. -/
theorem gk_whitelist_total_witness :
    (∃ w ∈ smallCfg.global_mitigation.whitelist_phrases,
       containsSub ("bad ok" : String).toList (normalize_text w).toList = true) ∧
    ((applyGlobalKnockout "bad ok" smallCfg).1 = clampCap smallCfg.global_knockout_cap 0 ∧
     ∀ h ∈ (applyGlobalKnockout "bad ok" smallCfg).2, ∃ p, h = p ++ "~whitelist") :=
  ⟨by decide, gk_whitelist_total "bad ok" smallCfg (by decide)⟩

/-- Witness instantiating `activity_bonus_capped` at a concrete row and the
(non-negative-cap) `smallCfg` policy. -/
theorem activity_bonus_capped_witness :
    (0 : ℚ) ≤ smallCfg.max_activity_bonus ∧
    ((activityBlock rowNoSkills.activities smallCfg).1 ≤ smallCfg.max_activity_bonus ∧
     (isTrainingLikeActivity rowNoSkills.activities smallCfg = true →
       (activityBlock rowNoSkills.activities smallCfg).1 = 0) ∧
     (rule_score rowNoSkills smallCfg).1
       = preActivityScore rowNoSkills smallCfg
         + (activityBlock rowNoSkills.activities smallCfg).1) :=
  ⟨by decide, activity_bonus_capped rowNoSkills smallCfg (by decide)⟩

/-- Witness instantiating `appliedGKWeight_spec`: the factor 1/2 of
`DEFAULT_RULES` scales the hard weight -2 to -1, between the full weight and
zero. -/
theorem appliedGKWeight_spec_witness :
    ((-2 : ℚ) < 0 ∧ (0 : ℚ) ≤ 1/2 ∧ (1/2 : ℚ) ≤ 1) ∧
    (-2 : ℚ) ≤ appliedGKWeight ["but"] ("x but y" : String).toList (-2) (1/2) ∧
    appliedGKWeight ["but"] ("x but y" : String).toList (-2) (1/2) ≤ 0 :=
  ⟨⟨by decide, by decide, by decide⟩,
   ((appliedGKWeight_spec ["but"] ("x but y" : String).toList (-2) (1/2)).2.2
      (by decide) (by decide) (by decide)).1,
   ((appliedGKWeight_spec ["but"] ("x but y" : String).toList (-2) (1/2)).2.2
      (by decide) (by decide) (by decide)).2⟩
